import Mathlib

/-!
Verification development for the Telco churn/growth analysis pipeline.

The pipeline is a linear sequence of table transformations over an in-memory
list of customer records: churn-flag derivation, cohort/retention aggregation,
funnel conversion counts, a simulated A/B experiment with a treatment effect,
and per-group aggregation.  Each definition below is a shallow embedding of
the corresponding notebook cell; rates are rationals and the elementwise
division of the dataframe library is modelled as an `Option`-valued division
(`none` standing for the NaN produced on a zero denominator).
-/

namespace Telco

/-- One customer record, with the columns the pipeline reads. -/
structure Record where
  customerID : String
  Contract : String
  InternetService : String
  StreamingTV : String
  StreamingMovies : String
  Churn : String
  tenure : Nat
  SeniorCitizen : Nat
  MonthlyCharges : ℚ
deriving DecidableEq

/-- Elementwise division of the dataframe library: a zero denominator yields
NaN, modelled here as `none`. -/
def pdiv (a b : ℚ) : Option ℚ := if b = 0 then none else some (a / b)

/-- Churn-flag derivation, from the cell
df[Churn_flag] = df[Churn].map(\x7bYes: 1, No: 0\x7d):
the map sends the label Yes to 1, No to 0 and any other value to null. -/
def Churn_flag (c : String) : Option Nat :=
  if c = "Yes" then some 1 else if c = "No" then some 0 else none

/-- Timedelta of one month in seconds, as the dataframe library resolves the
unit M: 30.436875 days, i.e. 2629746 seconds. -/
def monthTimedeltaSec : Int := 2629746

/-- Epoch seconds of the reference date 2020-02-01 00:00:00. -/
def referenceEpochSec : Int := 1580515200

/-- Epoch seconds of the simulated signup date:
reference_date minus tenure months. -/
def signupEpochSec (tenure : Nat) : Int :=
  referenceEpochSec - tenure * monthTimedeltaSec

/-- Day number (days since the epoch) of an epoch-seconds timestamp. -/
def epochDay (s : Int) : Int := Int.fdiv s 86400

/-- Civil year and month of a day number (standard civil-from-days
computation, proleptic Gregorian calendar). -/
def civilYM (z0 : Int) : Int × Int :=
  let z := z0 + 719468
  let era := Int.fdiv z 146097
  let doe := z - era * 146097
  let yoe := (doe - doe / 1460 + doe / 36524 - doe / 146096) / 365
  let y := yoe + era * 400
  let doy := doe - (365 * yoe + yoe / 4 - yoe / 100)
  let mp := (5 * doy + 2) / 153
  let m := if mp < 10 then mp + 3 else mp - 9
  (if m ≤ 2 then y + 1 else y, m)

/-- Signup month of a customer: the calendar year-month of
reference_date - tenure months, as in df[signup_month] =
df[signup_date].dt.to_period(M). -/
def signup_month (tenure : Nat) : Int × Int :=
  civilYM (epochDay (signupEpochSec tenure))

/-- Cohort key of a record: its signup month. -/
def sKey (r : Record) : Int × Int := signup_month r.tenure

/-- Predicate for a retained customer: Churn_flag == 0 (a null flag compares
unequal to 0, so it does not count as retained). -/
def isRetained (r : Record) : Bool := decide (Churn_flag r.Churn = some 0)

/-- Predicate for a churned customer: Churn_flag == 1. -/
def isChurned (r : Record) : Bool := decide (Churn_flag r.Churn = some 1)

/-- Records of the cohort keyed by a given signup month. -/
def cohortGroup (t : List Record) (k : Int × Int) : List Record :=
  t.filter (fun r => decide (sKey r = k))

/-- One row of the cohort table: signup month, customer count, retained
count and retention rate. -/
structure CohortRow where
  signup : Int × Int
  total_customers : Nat
  retained : Nat
  retention_rate : Option ℚ
deriving DecidableEq

/-- The aggregation row for one cohort: total_customers counts the (never
null) customerID values, retained counts the records whose flag equals 0,
and retention_rate = retained / total_customers. -/
def mkCohortRow (t : List Record) (k : Int × Int) : CohortRow :=
  { signup := k
    total_customers := (cohortGroup t k).length
    retained := (cohortGroup t k).countP isRetained
    retention_rate :=
      pdiv ((cohortGroup t k).countP isRetained : ℚ)
        (((cohortGroup t k).length : Nat) : ℚ) }

/-- The cohort table, one row per signup month present in the data
(df.groupby(signup_month): only keys that occur produce a group). -/
def cohort_data (t : List Record) : List CohortRow :=
  ((t.map sKey).dedup).map (mkCohortRow t)

/-- Funnel step 1: total signed up, all customers. -/
def total_signed (t : List Record) : Nat := t.length

/-- Funnel step 2 predicate: InternetService != No. -/
def hasInternetP (r : Record) : Bool := decide (r.InternetService ≠ "No")

/-- Funnel step 3 predicate: StreamingTV == Yes or StreamingMovies == Yes. -/
def streamingP (r : Record) : Bool :=
  decide (r.StreamingTV = "Yes") || decide (r.StreamingMovies = "Yes")

/-- Funnel step 4 predicate: still active, Churn_flag == 0. -/
def stillActiveP (r : Record) : Bool := decide (Churn_flag r.Churn = some 0)

/-- The four funnel counts, each computed on the full table df. -/
def funnel_counts (t : List Record) : List Nat :=
  [total_signed t, t.countP hasInternetP, t.countP streamingP,
    t.countP stillActiveP]

/-- The four funnel conversions: funnel[Conversion] =
funnel[Count] / total_signed. -/
def funnel_conversion (t : List Record) : List (Option ℚ) :=
  (funnel_counts t).map
    (fun c : Nat => pdiv (c : ℚ) ((total_signed t : Nat) : ℚ))

/-- A strictly narrowing funnel (each step filters the previous step's
survivors); the notebook does NOT compute this, it is here only to contrast
with funnel_counts. -/
def narrowedCounts (t : List Record) : List Nat :=
  let s2 := t.filter hasInternetP
  let s3 := s2.filter streamingP
  let s4 := s3.filter stillActiveP
  [t.length, s2.length, s3.length, s4.length]

/-- Experiment group label. -/
inductive Group where
  | A : Group
  | B : Group
deriving DecidableEq

/-- The filtered experiment population: month-to-month customers. -/
def mtm (t : List Record) : List Record :=
  t.filter (fun r => decide (r.Contract = "Month-to-month"))

/-- The experiment table rows, one per month-to-month customer: the derived
churn flag paired with the randomly assigned group label (the assignment
realization is the list g, one label per row). -/
def exp_rows (t : List Record) (g : List Group) : List (Option Nat × Group) :=
  ((mtm t).zip g).map (fun p => (Churn_flag p.1.Churn, p.2))

/-- One row of the per-group aggregation: total counts the non-null flags,
churned sums the non-null flags, rate = churned / total. -/
structure GroupRow where
  total : Nat
  churned : Nat
  rate : Option ℚ
deriving DecidableEq

/-- The churn flags of the rows carrying a given group label. -/
def flagsOf (rows : List (Option Nat × Group)) (x : Group) :
    List (Option Nat) :=
  (rows.filter (fun p => decide (p.2 = x))).map Prod.fst

/-- Aggregation of a list of flags, as groupby(group)[Churn_flag].agg:
count counts the non-null values, sum skips nulls, rate divides them. -/
def aggFlags (fs : List (Option Nat)) : GroupRow :=
  { total := fs.countP Option.isSome
    churned := (fs.filterMap id).sum
    rate := pdiv (((fs.filterMap id).sum : Nat) : ℚ)
      ((fs.countP Option.isSome : Nat) : ℚ) }

/-- The reported size of a group: the count of non-null flags among its
rows (0 when the group label occurs on no row). -/
def group_total (rows : List (Option Nat × Group)) (x : Group) : Nat :=
  (flagsOf rows x).countP Option.isSome

/-- The aggregation row a groupby reports for a group label: present exactly
when at least one row carries the label. -/
def groupAgg (rows : List (Option Nat × Group)) (x : Group) :
    Option GroupRow :=
  if flagsOf rows x = [] then none else some (aggFlags (flagsOf rows x))

/-- The baseline per-group aggregation grouped. -/
def grouped (t : List Record) (g : List Group) (x : Group) : Option GroupRow :=
  groupAgg (exp_rows t g) x

/-- The simulated treatment effect on a copy of the experiment table:
mtm_effect.loc[group == B, Churn_flag] = 0. -/
def mtm_effect (rows : List (Option Nat × Group)) :
    List (Option Nat × Group) :=
  rows.map (fun p => if p.2 = Group.B then (some 0, Group.B) else p)

/-- The post-treatment per-group aggregation grouped_effect. -/
def grouped_effect (t : List Record) (g : List Group) (x : Group) :
    Option GroupRow :=
  groupAgg (mtm_effect (exp_rows t g)) x

/-- Value counts of the Churn column, one entry per distinct label. -/
def churn_counts (t : List Record) : List (String × Nat) :=
  ((t.map Record.Churn).dedup).map
    (fun s => (s, t.countP (fun r => decide (r.Churn = s))))

/-- Churn percentage: churn_counts / df.shape[0] * 100. -/
def churn_percentage (t : List Record) : List (String × Option ℚ) :=
  (churn_counts t).map
    (fun p => (p.1, (pdiv ((p.2 : Nat) : ℚ) ((t.length : Nat) : ℚ)).map
      (fun q => q * 100)))

/-- Sample record: a month-to-month customer with churn label Yes. -/
def rA : Record :=
  ⟨"0001", "Month-to-month", "Fiber optic", "Yes", "No", "Yes", 5, 0, 70⟩

/-- Sample record: a month-to-month customer with churn label No. -/
def rB : Record :=
  ⟨"0002", "Month-to-month", "DSL", "No", "No", "No", 5, 0, 50⟩

/-- Sample record: a two-year customer with an out-of-vocabulary churn label
and streaming but no internet service. -/
def rC : Record :=
  ⟨"0003", "Two year", "No", "Yes", "No", "Maybe", 5, 1, 20⟩


lemma flagsOf_mtm_effect_B (rows : List (Option Nat × Group)) :
    flagsOf (mtm_effect rows) Group.B =
      List.replicate (flagsOf rows Group.B).length (some 0) := by
  induction rows with
  | nil => rfl
  | cons p rows ih =>
    rcases p with ⟨fl, gr⟩
    cases gr <;>
      simp [mtm_effect, flagsOf, List.filter_cons, List.replicate_succ] at ih ⊢ <;>
      simpa using ih

lemma flagsOf_mtm_effect_A (rows : List (Option Nat × Group)) :
    flagsOf (mtm_effect rows) Group.A = flagsOf rows Group.A := by
  induction rows with
  | nil => rfl
  | cons p rows ih =>
    rcases p with ⟨fl, gr⟩
    cases gr <;> simp [mtm_effect, flagsOf, List.filter_cons] at ih ⊢ <;>
      simpa using ih

lemma sum_replicate_zero (n : Nat) :
    ((List.replicate n (some 0 : Option Nat)).filterMap id).sum = 0 := by
  induction n with
  | zero => rfl
  | succ n ih => simpa [List.replicate_succ] using ih

lemma countP_replicate_some (n : Nat) :
    (List.replicate n (some 0 : Option Nat)).countP Option.isSome = n := by
  induction n with
  | zero => rfl
  | succ n ih => simp [List.replicate_succ, List.countP_cons, ih]

/-- C1: after the simulated treatment effect zeroes the churn flag of every
group-B record, the aggregation row that grouped_effect reports for group B
has churned-count exactly 0 and churn rate exactly 0, for every input table
and every A/B assignment. -/
theorem grouped_effect_B_zero (t : List Record) (g : List Group) (gr : GroupRow)
    (h : grouped_effect t g Group.B = some gr) :
    gr.churned = 0 ∧ gr.rate = some 0 := by
  unfold grouped_effect groupAgg at h
  by_cases hfs : flagsOf (mtm_effect (exp_rows t g)) Group.B = []
  · simp [hfs] at h
  · simp only [if_neg hfs, Option.some.injEq] at h
    subst h
    rw [flagsOf_mtm_effect_B] at hfs ⊢
    have hn0 : (flagsOf (exp_rows t g) Group.B).length ≠ 0 := by
      intro h0; rw [h0] at hfs; simp at hfs
    have hnq : (((flagsOf (exp_rows t g) Group.B).length : Nat) : ℚ) ≠ 0 := by
      exact_mod_cast hn0
    constructor
    · simp [aggFlags, sum_replicate_zero]
    · simp [aggFlags, sum_replicate_zero, countP_replicate_some, pdiv, hnq]

lemma cohortGroup_pos (t : List Record) (k : Int × Int)
    (hk : k ∈ (t.map sKey).dedup) : 0 < (cohortGroup t k).length := by
  rw [List.mem_dedup, List.mem_map] at hk
  obtain ⟨r, hr, hrk⟩ := hk
  have hmem : r ∈ cohortGroup t k := by
    simp [cohortGroup, List.mem_filter, hr, hrk]
  exact List.length_pos.mpr (fun hnil => by simp [hnil] at hmem)

/-- C2: every cohort produced by grouping on signup month has
total_customers > 0 (empty cohorts are never produced, so no division by
zero), retained ≤ total_customers, and a retention rate that is defined and
lies in the interval from 0 to 1. -/
theorem cohort_rate_invariants (t : List Record) (c : CohortRow)
    (hc : c ∈ cohort_data t) :
    0 < c.total_customers ∧ c.retained ≤ c.total_customers ∧
      ∃ q, c.retention_rate = some q ∧ 0 ≤ q ∧ q ≤ 1 := by
  rw [cohort_data, List.mem_map] at hc
  obtain ⟨k, hk, rfl⟩ := hc
  have hpos := cohortGroup_pos t k hk
  have hposq : (0 : ℚ) < (((cohortGroup t k).length : Nat) : ℚ) := by
    exact_mod_cast hpos
  refine ⟨hpos, List.countP_le_length _, ?_⟩
  refine ⟨((cohortGroup t k).countP isRetained : ℚ) /
    (((cohortGroup t k).length : Nat) : ℚ), ?_, ?_, ?_⟩
  · simp [mkCohortRow, pdiv, hposq.ne']
  · exact div_nonneg (Nat.cast_nonneg _) (Nat.cast_nonneg _)
  · rw [div_le_one hposq]
    exact_mod_cast List.countP_le_length _


lemma pdiv_eq_none_iff (a b : ℚ) : pdiv a b = none ↔ b = 0 := by
  unfold pdiv
  split <;> simp [*]

/-- C3 counterexample: on the empty input table the four funnel conversions
are all NaN (0/0, modelled as none), so the claim that every conversion lies
between 0 and 1 for every input table fails. -/
theorem funnel_conversion_empty_violates :
    ¬ (∀ c ∈ funnel_conversion ([] : List Record),
        ∃ q, c = some q ∧ 0 ≤ q ∧ q ≤ 1) := by
  intro h
  have hmem : (none : Option ℚ) ∈ funnel_conversion ([] : List Record) := by
    simp [funnel_conversion, funnel_counts, total_signed, pdiv]
  obtain ⟨q, hq, _⟩ := h none hmem
  exact Option.noConfusion hq

lemma funnel_counts_le (t : List Record) :
    ∀ n ∈ funnel_counts t, n ≤ total_signed t := by
  intro n hn
  simp only [funnel_counts, List.mem_cons, List.not_mem_nil, or_false] at hn
  rcases hn with h | h | h | h <;> subst h <;>
    first
      | exact le_refl _
      | exact List.countP_le_length _

/-- C3 (amended): for every input table with at least one row, each of the
four funnel steps has Count ≤ total_signed and a conversion
Count / total_signed that is defined and lies between 0 and 1. -/
theorem funnel_invariants_nonempty (t : List Record) (ht : 0 < t.length) :
    (∀ n ∈ funnel_counts t, n ≤ total_signed t) ∧
      (∀ c ∈ funnel_conversion t, ∃ q, c = some q ∧ 0 ≤ q ∧ q ≤ 1) := by
  have hq : (0 : ℚ) < ((t.length : Nat) : ℚ) := by exact_mod_cast ht
  refine ⟨funnel_counts_le t, ?_⟩
  intro c hc
  rw [funnel_conversion, List.mem_map] at hc
  obtain ⟨n, hn, rfl⟩ := hc
  have hle : n ≤ t.length := funnel_counts_le t n hn
  refine ⟨(n : ℚ) / ((t.length : Nat) : ℚ), ?_, ?_, ?_⟩
  · simp [pdiv, total_signed, hq.ne']
  · exact div_nonneg (Nat.cast_nonneg _) (Nat.cast_nonneg _)
  · rw [div_le_one hq]
    exact_mod_cast hle

/-- C4: each funnel step's count equals the number of records of the full
table satisfying that step's predicate alone, and this differs from a
strictly narrowing funnel on some table. -/
theorem funnel_counts_independent :
    (∀ t : List Record, funnel_counts t =
      [t.length, t.countP hasInternetP, t.countP streamingP,
        t.countP stillActiveP]) ∧
    (∃ t : List Record, funnel_counts t ≠ narrowedCounts t) := by
  refine ⟨fun t => rfl, ⟨[⟨"0003", "Two year", "No", "Yes", "No", "Maybe", 5, 1, 20⟩], ?_⟩⟩
  decide

lemma group_total_partition (rows : List (Option Nat × Group))
    (hs : ∀ p ∈ rows, (Prod.fst p).isSome = true) :
    group_total rows Group.A + group_total rows Group.B = rows.length := by
  induction rows with
  | nil => rfl
  | cons p rows ih =>
    have hp := hs p (List.mem_cons_self _ _)
    have ih' := ih (fun q hq => hs q (List.mem_cons_of_mem _ hq))
    rcases p with ⟨fl, gr⟩
    cases gr <;>
      simp only [group_total, flagsOf, List.filter_cons] at ih' ⊢ <;>
      simp [List.countP_cons, hp] at ih' ⊢ <;> omega

/-- C5: for every realization of the per-record A/B assignment over a table
whose churn labels are all Yes or No (the binary churn label of the data
model), the reported group sizes partition the filtered month-to-month
subset: n_A plus n_B equals the filtered population size; moreover the size
a groupby row reports is exactly this group total. -/
theorem experiment_groups_partition (t : List Record) (g : List Group)
    (hchurn : ∀ r ∈ t, r.Churn = "Yes" ∨ r.Churn = "No")
    (hg : g.length = (mtm t).length) :
    group_total (exp_rows t g) Group.A + group_total (exp_rows t g) Group.B =
      (mtm t).length ∧
    (∀ x gr, groupAgg (exp_rows t g) x = some gr →
      gr.total = group_total (exp_rows t g) x) := by
  constructor
  · have hsome : ∀ p ∈ exp_rows t g, (Prod.fst p).isSome = true := by
      intro p hp
      rw [exp_rows, List.mem_map] at hp
      obtain ⟨⟨r, x⟩, hmem, rfl⟩ := hp
      have hr : r ∈ mtm t := (List.of_mem_zip hmem).1
      have hrt : r ∈ t := List.mem_of_mem_filter hr
      rcases hchurn r hrt with h | h <;> simp [Churn_flag, h]
    rw [group_total_partition _ hsome, exp_rows, List.length_map,
      List.length_zip, hg, Nat.min_self]
  · intro x gr h
    unfold groupAgg at h
    by_cases hfs : flagsOf (exp_rows t g) x = []
    · simp [hfs] at h
    · simp only [if_neg hfs, Option.some.injEq] at h
      subst h
      rfl

/-- C6: every rate computation of the pipeline is guarded against division
by zero: the modelled division yields none exactly on a zero denominator;
churn-percentage entries and cohort retention rates always have nonzero
denominators and are defined; funnel conversions are all NaN on an empty
table and all defined otherwise; and a per-group rate is NaN exactly when
the group's non-null count is zero.  No computation crashes. -/
theorem rates_guarded :
    (∀ a b : ℚ, pdiv a b = none ↔ b = 0) ∧
    (∀ t : List Record, ∀ p ∈ churn_percentage t,
      (Prod.snd p).isSome = true) ∧
    (∀ t : List Record, ∀ c ∈ cohort_data t,
      c.retention_rate.isSome = true) ∧
    (∀ t : List Record, total_signed t = 0 →
      ∀ c ∈ funnel_conversion t, c = none) ∧
    (∀ t : List Record, 0 < total_signed t →
      ∀ c ∈ funnel_conversion t, c.isSome = true) ∧
    (∀ (rows : List (Option Nat × Group)) (x : Group) (gr : GroupRow),
      groupAgg rows x = some gr → (gr.rate = none ↔ gr.total = 0)) := by
  refine ⟨pdiv_eq_none_iff, ?_, ?_, ?_, ?_, ?_⟩
  · intro t p hp
    rw [churn_percentage, List.mem_map] at hp
    obtain ⟨⟨s, n⟩, hmem, rfl⟩ := hp
    rw [churn_counts, List.mem_map] at hmem
    obtain ⟨s0, hs0, heq⟩ := hmem
    rw [List.mem_dedup, List.mem_map] at hs0
    obtain ⟨r, hr, _⟩ := hs0
    have hpos : 0 < t.length :=
      List.length_pos.mpr (fun hnil => by simp [hnil] at hr)
    have hne : ((t.length : Nat) : ℚ) ≠ 0 := by exact_mod_cast hpos.ne'
    simp [pdiv, hne]
  · intro t c hc
    rw [cohort_data, List.mem_map] at hc
    obtain ⟨k, hk, rfl⟩ := hc
    have hpos := cohortGroup_pos t k hk
    have hne : (((cohortGroup t k).length : Nat) : ℚ) ≠ 0 := by
      exact_mod_cast hpos.ne'
    simp [mkCohortRow, pdiv, hne]
  · intro t h0 c hc
    rw [funnel_conversion, List.mem_map] at hc
    obtain ⟨n, _, rfl⟩ := hc
    have h0q : ((total_signed t : Nat) : ℚ) = 0 := by exact_mod_cast h0
    simp [pdiv, h0q]
  · intro t h0 c hc
    rw [funnel_conversion, List.mem_map] at hc
    obtain ⟨n, _, rfl⟩ := hc
    have hne : ((total_signed t : Nat) : ℚ) ≠ 0 := by exact_mod_cast h0.ne'
    simp [pdiv, hne]
  · intro rows x gr h
    unfold groupAgg at h
    by_cases hfs : flagsOf rows x = []
    · simp [hfs] at h
    · simp only [if_neg hfs, Option.some.injEq] at h
      subst h
      show pdiv _ _ = none ↔ _
      rw [pdiv_eq_none_iff]
      exact Nat.cast_eq_zero

/-- C8: the simulated treatment writes to a copy: the flags of the group-A
rows are unchanged by the treatment, so group A's aggregation row in
grouped_effect equals group A's row in the baseline grouped. -/
theorem treatment_frame_A (t : List Record) (g : List Group) :
    flagsOf (mtm_effect (exp_rows t g)) Group.A =
      flagsOf (exp_rows t g) Group.A ∧
    grouped_effect t g Group.A = grouped t g Group.A := by
  have h := flagsOf_mtm_effect_A (exp_rows t g)
  refine ⟨h, ?_⟩
  unfold grouped_effect grouped groupAgg
  rw [h]

lemma countP_two_le {α : Type} (p q : α → Bool) (l : List α)
    (hd : ∀ x, p x = true → q x = false) :
    l.countP p + l.countP q ≤ l.length := by
  induction l with
  | nil => simp
  | cons a l ih =>
    by_cases hpa : p a = true
    · have hqa : q a = false := hd a hpa
      simp [List.countP_cons, hpa, hqa]
      omega
    · have hpa' : p a = false := by simpa using hpa
      cases hqa : q a <;> simp [List.countP_cons, hpa', hqa] <;> omega

lemma countP_two_lt {α : Type} (p q : α → Bool) (l : List α)
    (hd : ∀ x, p x = true → q x = false) (a : α) (ha : a ∈ l)
    (hpa : p a = false) (hqa : q a = false) :
    l.countP p + l.countP q < l.length := by
  induction l with
  | nil => simp at ha
  | cons b l ih =>
    rcases List.mem_cons.mp ha with rfl | hmem
    · have hle := countP_two_le p q l hd
      simp [List.countP_cons, hpa, hqa]
      omega
    · have hlt := ih hmem
      by_cases hpb : p b = true
      · have hqb : q b = false := hd b hpb
        simp [List.countP_cons, hpb, hqb]
        omega
      · have hpb' : p b = false := by simpa using hpb
        cases hqb : q b <;> simp [List.countP_cons, hpb', hqb] <;> omega

/-- C9: the churn-flag derivation maps Yes to 1 and No to 0 only; a record
with any other label gets a null flag, is counted in its cohort's
total_customers but in neither retained nor churned, so
retained + churned < total_customers and the retention rate is strictly
below the fraction of non-churned labels. -/
theorem churn_flag_other_label (t : List Record) (r : Record)
    (hrt : r ∈ t) (hy : r.Churn ≠ "Yes") (hn : r.Churn ≠ "No") :
    Churn_flag ("Yes") = some 1 ∧ Churn_flag ("No") = some 0 ∧
    Churn_flag r.Churn = none ∧
    r ∈ cohortGroup t (sKey r) ∧
    (cohortGroup t (sKey r)).countP isRetained +
      (cohortGroup t (sKey r)).countP isChurned <
      (cohortGroup t (sKey r)).length ∧
    ∃ q, (mkCohortRow t (sKey r)).retention_rate = some q ∧
      q < ((((cohortGroup t (sKey r)).length -
          (cohortGroup t (sKey r)).countP isChurned : Nat)) : ℚ) /
        (((cohortGroup t (sKey r)).length : Nat) : ℚ) := by
  have hflag : Churn_flag r.Churn = none := by
    unfold Churn_flag
    rw [if_neg hy, if_neg hn]
  have hmem : r ∈ cohortGroup t (sKey r) := by
    simp [cohortGroup, List.mem_filter, hrt]
  have hdisj : ∀ x : Record, isRetained x = true → isChurned x = false := by
    intro x hx
    rw [isRetained, decide_eq_true_eq] at hx
    simp [isChurned, hx]
  have hra : isRetained r = false := by simp [isRetained, hflag]
  have hca : isChurned r = false := by simp [isChurned, hflag]
  have hlt := countP_two_lt isRetained isChurned (cohortGroup t (sKey r))
    hdisj r hmem hra hca
  have hpos : 0 < (cohortGroup t (sKey r)).length :=
    List.length_pos.mpr (fun hnil => by simp [hnil] at hmem)
  have hposq : (0 : ℚ) < (((cohortGroup t (sKey r)).length : Nat) : ℚ) := by
    exact_mod_cast hpos
  refine ⟨by decide, by decide, hflag, hmem, hlt, ?_⟩
  refine ⟨((cohortGroup t (sKey r)).countP isRetained : ℚ) /
    (((cohortGroup t (sKey r)).length : Nat) : ℚ), ?_, ?_⟩
  · simp [mkCohortRow, pdiv, hposq.ne']
  · rw [div_lt_div_iff₀ hposq hposq]
    have hnat : (cohortGroup t (sKey r)).countP isRetained <
        (cohortGroup t (sKey r)).length -
          (cohortGroup t (sKey r)).countP isChurned := by omega
    have hq : ((cohortGroup t (sKey r)).countP isRetained : ℚ) <
        ((((cohortGroup t (sKey r)).length -
          (cohortGroup t (sKey r)).countP isChurned : Nat)) : ℚ) := by
      exact_mod_cast hnat
    exact mul_lt_mul_of_pos_right hq hposq

/-- C10: for every non-empty input table the first funnel step has Count
equal to the table's row count and conversion exactly 1. -/
theorem funnel_first_step (t : List Record) (ht : t ≠ []) :
    (funnel_counts t).head? = some t.length ∧
    (funnel_conversion t).head? = some (some 1) := by
  have hq : ((t.length : Nat) : ℚ) ≠ 0 := by
    exact_mod_cast (List.length_pos.mpr ht).ne'
  refine ⟨rfl, ?_⟩
  simp [funnel_conversion, funnel_counts, total_signed, pdiv, hq]

theorem grouped_effect_B_zero_witness :
    (⟨2, 0, some 0⟩ : GroupRow).churned = 0 ∧
      (⟨2, 0, some 0⟩ : GroupRow).rate = some 0 :=
  grouped_effect_B_zero [rA, rB] [Group.B, Group.B] ⟨2, 0, some 0⟩
    (by simp [grouped_effect, mtm_effect, exp_rows, mtm, flagsOf, groupAgg,
      aggFlags, pdiv, Churn_flag, rA, rB])

theorem cohort_rate_invariants_witness :
    0 < (mkCohortRow [rA] (sKey rA)).total_customers ∧
      (mkCohortRow [rA] (sKey rA)).retained ≤
        (mkCohortRow [rA] (sKey rA)).total_customers ∧
      ∃ q, (mkCohortRow [rA] (sKey rA)).retention_rate = some q ∧
        0 ≤ q ∧ q ≤ 1 :=
  cohort_rate_invariants [rA] (mkCohortRow [rA] (sKey rA)) (by
    simp [cohort_data])

theorem funnel_invariants_nonempty_witness :
    (∀ n ∈ funnel_counts [rA], n ≤ total_signed [rA]) ∧
      (∀ c ∈ funnel_conversion [rA], ∃ q, c = some q ∧ 0 ≤ q ∧ q ≤ 1) :=
  funnel_invariants_nonempty [rA] (by simp)

theorem experiment_groups_partition_witness :
    group_total (exp_rows [rA, rB] [Group.A, Group.B]) Group.A +
        group_total (exp_rows [rA, rB] [Group.A, Group.B]) Group.B =
      (mtm [rA, rB]).length ∧
    (∀ x gr, groupAgg (exp_rows [rA, rB] [Group.A, Group.B]) x = some gr →
      gr.total = group_total (exp_rows [rA, rB] [Group.A, Group.B]) x) :=
  experiment_groups_partition [rA, rB] [Group.A, Group.B]
    (by decide) (by decide)

theorem rates_guarded_witness : pdiv 1 0 = none :=
  (rates_guarded.1 1 0).mpr rfl

theorem churn_flag_other_label_witness :
    Churn_flag ("Yes") = some 1 ∧ Churn_flag ("No") = some 0 ∧
    Churn_flag rC.Churn = none ∧
    rC ∈ cohortGroup [rC] (sKey rC) ∧
    (cohortGroup [rC] (sKey rC)).countP isRetained +
      (cohortGroup [rC] (sKey rC)).countP isChurned <
      (cohortGroup [rC] (sKey rC)).length ∧
    ∃ q, (mkCohortRow [rC] (sKey rC)).retention_rate = some q ∧
      q < ((((cohortGroup [rC] (sKey rC)).length -
          (cohortGroup [rC] (sKey rC)).countP isChurned : Nat)) : ℚ) /
        (((cohortGroup [rC] (sKey rC)).length : Nat) : ℚ) :=
  churn_flag_other_label [rC] rC (List.mem_singleton.mpr rfl)
    (by decide) (by decide)

theorem funnel_first_step_witness :
    (funnel_counts [rA]).head? = some (List.length [rA]) ∧
    (funnel_conversion [rA]).head? = some (some 1) :=
  funnel_first_step [rA] (List.cons_ne_nil _ _)

end Telco
